import Mathlib

/-!
Verification of the 57north-bank snack-bank program.

The embedding follows the Rust sources:
* `src/barcode.rs` — barcode parsing and checksum validation;
* `src/db.rs`      — the ledger store (users, transactions, mutating operations);
* `src/main.rs`    — cart settlement (`complete_cart`) and card-registration glue.

Machine integers: prices, cart totals and deposit amounts are `u32` in the
source and are modelled as `Nat`; balances are `i32` and are modelled as `Int`.
Wall-clock timestamps attached to transactions are not modelled; no property
below concerns them.
-/

namespace Bank

/-! ## Barcode (src/barcode.rs) -/

/-- The `Barcode` enum: a symbology tag plus the digit vector. -/
inductive Barcode where
  | ean13 (digits : List Nat)
  | ean8 (digits : List Nat)
  | upcA (digits : List Nat)
  | upcE (digits : List Nat)
deriving DecidableEq

/-- The digit list carried by a barcode, regardless of symbology. -/
def digitsOf : Barcode → List Nat
  | .ean13 ds => ds
  | .ean8 ds => ds
  | .upcA ds => ds
  | .upcE ds => ds

/-- `int_digits` on the character list: `char::to_digit(10)` succeeds exactly
on `'0'..='9'`, and the whole conversion fails on the first non-digit. -/
def intDigitsList : List Char → Option (List Nat)
  | [] => some []
  | c :: cs =>
    if c.isDigit then
      match intDigitsList cs with
      | some ds => some ((c.toNat - 48) :: ds)
      | none => none
    else none

/-- `int_digits(input)` from src/barcode.rs. -/
def intDigits (s : String) : Option (List Nat) :=
  intDigitsList s.data

/-- `Barcode::try_parse` from src/barcode.rs: all-digit input, dispatched on
length 13/12/8/6. -/
def tryParse (input : String) : Option Barcode :=
  match intDigits input with
  | none => none
  | some barcodeDigits =>
    match barcodeDigits.length with
    | 13 => some (.ean13 barcodeDigits)
    | 12 => some (.upcA barcodeDigits)
    | 8 => some (.ean8 barcodeDigits)
    | 6 => some (.upcE barcodeDigits)
    | _ => none

/-- The digit portion of `Display for Barcode`:
`digits.iter().map(|d| d.to_string()).collect::<String>()`. -/
def digitString (b : Barcode) : String :=
  String.join ((digitsOf b).map (fun d => toString d))

/-- `Display for Barcode`: a symbology label followed by the digit string. -/
def display (b : Barcode) : String :=
  match b with
  | .ean13 _ => "EAN-13: " ++ digitString b
  | .ean8 _ => "EAN-8: " ++ digitString b
  | .upcA _ => "UPC-A: " ++ digitString b
  | .upcE _ => "UPC-E: " ++ digitString b

/-- The inner `check` closure of `Barcode::check_digit`: enumerate the digits,
partition by index parity (inverted for EAN-8), and require that the sum of the
unweighted class plus three times the weighted class is divisible by ten. -/
def check (digits : List Nat) (invert : Bool) : Bool :=
  let parts := digits.enum.partition
    (fun x => if invert then x.1 % 2 == 0 else x.1 % 2 == 1)
  ((parts.2.map (fun x => x.2)).sum + (parts.1.map (fun x => x.2)).sum * 3) % 10 == 0

/-- `Barcode::check_digit` from src/barcode.rs. -/
def checkDigit : Barcode → Bool
  | .ean13 ds => if ds.length ≠ 13 then false else check ds false
  | .ean8 ds => if ds.length ≠ 8 then false else check ds true
  | .upcA ds => if ds.length ≠ 12 then false else check ds false
  | .upcE ds => if ds.length ≠ 6 then false else check ds false

/-- The digit count each symbology requires. -/
def expectedLength : Barcode → Nat
  | .ean13 _ => 13
  | .ean8 _ => 8
  | .upcA _ => 12
  | .upcE _ => 6

/-- Which symbologies invert the parity class receiving the ×3 weight. -/
def invertOf : Barcode → Bool
  | .ean8 _ => true
  | _ => false

/-- Spec-side weight of the digit at 0-based position `i`: 3 on one parity
class, 1 on the other, selected by `threeOnEven`. -/
def weightAt (threeOnEven : Bool) (i : Nat) : Nat :=
  if (i % 2 == 0) = threeOnEven then 3 else 1

/-- Spec-side weighted checksum: sum of digit × positional weight over all
digits, the trailing check digit included. -/
def weightedSum (threeOnEven : Bool) (ds : List Nat) : Nat :=
  ((ds.enum).map (fun x => x.2 * weightAt threeOnEven x.1)).sum

/-! ### Checksum lemmas -/

theorem partitionSum (l : List (Nat × Nat)) (p : Nat × Nat → Bool) :
    ((l.filter (not ∘ p)).map (fun x => x.2)).sum
      + ((l.filter p).map (fun x => x.2)).sum * 3
      = (l.map (fun x => x.2 * (if p x then 3 else 1))).sum := by
  induction l with
  | nil => simp
  | cons a l ih =>
    by_cases h : p a <;> simp [h] at ih ⊢ <;> omega

theorem check_eq_weightedSum (ds : List Nat) (inv : Bool) :
    check ds inv = (weightedSum inv ds % 10 == 0) := by
  unfold check weightedSum
  rw [List.partition_eq_filter_filter]
  dsimp only
  rw [partitionSum]
  congr 2
  congr 1
  apply List.map_congr_left
  intro x _
  rcases Nat.mod_two_eq_zero_or_one x.1 with h | h <;>
    cases inv <;> simp [weightAt, h]

theorem enumFrom_append_single (ds : List Nat) (d : Nat) : ∀ n : Nat,
    List.enumFrom n (ds ++ [d]) = List.enumFrom n ds ++ [(n + ds.length, d)] := by
  induction ds with
  | nil => intro n; simp [List.enumFrom]
  | cons a ds ih =>
    intro n
    show (n, a) :: List.enumFrom (n + 1) (ds ++ [d])
        = (n, a) :: List.enumFrom (n + 1) ds ++ [(n + (a :: ds).length, d)]
    rw [ih (n + 1)]
    have harith : n + 1 + ds.length = n + (a :: ds).length := by
      simp only [List.length_cons]; omega
    rw [harith]
    rfl

theorem weightedSum_append (inv : Bool) (ds : List Nat) (d : Nat) :
    weightedSum inv (ds ++ [d]) = weightedSum inv ds + d * weightAt inv ds.length := by
  unfold weightedSum
  rw [show (ds ++ [d]).enum = List.enumFrom 0 (ds ++ [d]) from rfl,
    enumFrom_append_single, show ds.enum = List.enumFrom 0 ds from rfl]
  simp

/-! ### Parsing lemmas -/

theorem intDigitsList_isSome (cs : List Char) :
    (intDigitsList cs).isSome = cs.all Char.isDigit := by
  induction cs with
  | nil => rfl
  | cons c cs ih =>
    by_cases h : c.isDigit
    · simp only [intDigitsList, h, if_true, List.all_cons, Bool.true_and, ← ih]
      cases intDigitsList cs <;> rfl
    · simp [intDigitsList, h]

theorem intDigitsList_length (cs : List Char) (ds : List Nat)
    (h : intDigitsList cs = some ds) : ds.length = cs.length := by
  induction cs generalizing ds with
  | nil =>
    simp only [intDigitsList, Option.some.injEq] at h
    subst h; rfl
  | cons c cs ih =>
    by_cases hc : c.isDigit
    · simp only [intDigitsList, hc, if_true] at h
      cases hr : intDigitsList cs with
      | none => rw [hr] at h; exact absurd h (by simp)
      | some ds0 =>
        rw [hr] at h
        simp only [Option.some.injEq] at h
        subst h
        simp [ih ds0 hr]
    · simp [intDigitsList, hc] at h

theorem intDigitsList_lt_ten (cs : List Char) (ds : List Nat)
    (h : intDigitsList cs = some ds) : ∀ d ∈ ds, d < 10 := by
  induction cs generalizing ds with
  | nil =>
    simp only [intDigitsList, Option.some.injEq] at h
    subst h; simp
  | cons c cs ih =>
    by_cases hc : c.isDigit
    · simp only [intDigitsList, hc, if_true] at h
      cases hr : intDigitsList cs with
      | none => rw [hr] at h; exact absurd h (by simp)
      | some ds0 =>
        rw [hr] at h
        simp only [Option.some.injEq] at h
        subst h
        intro d hd
        rcases List.mem_cons.mp hd with hd | hd
        · subst hd
          have hle : c.toNat ≤ 57 := by
            simp only [Char.isDigit, Bool.and_eq_true, decide_eq_true_eq] at hc
            have h9 := hc.2
            simp only [Char.le_def] at h9
            exact h9
          omega
        · exact ih ds0 hr d hd
    · simp [intDigitsList, hc] at h

theorem foldl_append_data (l : List String) : ∀ s : String,
    (l.foldl (fun r t => r ++ t) s).data = s.data ++ (l.map String.data).flatten := by
  induction l with
  | nil => intro s; simp
  | cons a l ih => intro s; simp [List.foldl_cons, ih, String.data_append]

theorem join_data (l : List String) :
    (String.join l).data = (l.map String.data).flatten := by
  show (l.foldl _ "").data = _
  rw [foldl_append_data]
  rfl

theorem toString_digit_data (d : Nat) (h : d < 10) :
    ∃ c : Char, (toString d).data = [c] ∧ c.isDigit = true ∧ c.toNat - 48 = d := by
  interval_cases d
  · exact ⟨'0', by decide, by decide, by decide⟩
  · exact ⟨'1', by decide, by decide, by decide⟩
  · exact ⟨'2', by decide, by decide, by decide⟩
  · exact ⟨'3', by decide, by decide, by decide⟩
  · exact ⟨'4', by decide, by decide, by decide⟩
  · exact ⟨'5', by decide, by decide, by decide⟩
  · exact ⟨'6', by decide, by decide, by decide⟩
  · exact ⟨'7', by decide, by decide, by decide⟩
  · exact ⟨'8', by decide, by decide, by decide⟩
  · exact ⟨'9', by decide, by decide, by decide⟩

theorem intDigitsList_flatten_digits (ds : List Nat) (h : ∀ d ∈ ds, d < 10) :
    intDigitsList ((ds.map (fun d => (toString d).data)).flatten) = some ds := by
  induction ds with
  | nil => rfl
  | cons d ds ih =>
    obtain ⟨c, hc1, hc2, hc3⟩ := toString_digit_data d (h d (List.mem_cons_self ..))
    simp only [List.map_cons, List.flatten_cons, hc1, List.singleton_append, intDigitsList,
      hc2, if_true, ih (fun x hx => h x (List.mem_cons_of_mem _ hx)), hc3]

theorem intDigits_digitString (b : Barcode) (h : ∀ d ∈ digitsOf b, d < 10) :
    intDigits (digitString b) = some (digitsOf b) := by
  unfold intDigits digitString
  rw [join_data, List.map_map]
  exact intDigitsList_flatten_digits (digitsOf b) h

theorem dispatch_eq (ds : List Nat) :
    (match ds.length with
      | 13 => some (Barcode.ean13 ds)
      | 12 => some (Barcode.upcA ds)
      | 8 => some (Barcode.ean8 ds)
      | 6 => some (Barcode.upcE ds)
      | _ => none)
      = if ds.length = 13 then some (Barcode.ean13 ds)
        else if ds.length = 12 then some (Barcode.upcA ds)
        else if ds.length = 8 then some (Barcode.ean8 ds)
        else if ds.length = 6 then some (Barcode.upcE ds)
        else none := by
  split <;> simp_all

theorem tryParse_some_digits (s : String) (ds : List Nat) (h : intDigits s = some ds) :
    tryParse s = if ds.length = 13 then some (Barcode.ean13 ds)
      else if ds.length = 12 then some (Barcode.upcA ds)
      else if ds.length = 8 then some (Barcode.ean8 ds)
      else if ds.length = 6 then some (Barcode.upcE ds)
      else none := by
  unfold tryParse
  rw [h]
  exact dispatch_eq ds

theorem tryParse_of_none (s : String) (h : intDigits s = none) : tryParse s = none := by
  unfold tryParse
  rw [h]

theorem tryParse_roundTrip (b : Barcode) (hlt : ∀ d ∈ digitsOf b, d < 10)
    (hlen : (digitsOf b).length = expectedLength b) :
    tryParse (digitString b) = some b := by
  have hid := intDigits_digitString b hlt
  cases b <;>
    · simp only [digitsOf, expectedLength] at hlen hid
      rw [tryParse_some_digits _ _ hid]
      simp [hlen]

/-- C3: for every identity, `check_digit` is true exactly when the digit list
has the length its symbology requires and the parity-weighted digit sum —
digits at one parity class of 0-based positions weighted ×3, the others ×1,
the trailing check digit included, with the 8-digit symbology inverting which
class gets the ×3 weight — is divisible by 10; in particular a wrong-length
digit list always yields false, and the function is total (never raises). -/
theorem checkDigit_iff_weightedSum (b : Barcode) :
    checkDigit b = true ↔
      ((digitsOf b).length = expectedLength b
        ∧ weightedSum (invertOf b) (digitsOf b) % 10 = 0) := by
  cases b with
  | ean13 ds =>
    by_cases hl : ds.length = 13 <;>
      simp [checkDigit, digitsOf, expectedLength, invertOf, check_eq_weightedSum, hl]
  | ean8 ds =>
    by_cases hl : ds.length = 8 <;>
      simp [checkDigit, digitsOf, expectedLength, invertOf, check_eq_weightedSum, hl]
  | upcA ds =>
    by_cases hl : ds.length = 12 <;>
      simp [checkDigit, digitsOf, expectedLength, invertOf, check_eq_weightedSum, hl]
  | upcE ds =>
    by_cases hl : ds.length = 6 <;>
      simp [checkDigit, digitsOf, expectedLength, invertOf, check_eq_weightedSum, hl]

/-- C2 (counterexample): the all-digit string of length 14 does not parse —
there is no 14-digit symbology in the code, contradicting the claim that
length 14 maps to a canonical 14-digit symbology. -/
theorem tryParse_no_ean14 :
    "00000000000000".data.all Char.isDigit = true
      ∧ "00000000000000".length = 14
      ∧ tryParse "00000000000000" = none := by
  refine ⟨by decide, by decide, by decide⟩

/-- C2 (amended): `try_parse` returns an identity exactly when the input is all
decimal digits of length 6, 8, 12 or 13 (mapping respectively to the UPC-E,
EAN-8, UPC-A and EAN-13 symbologies); every other length — including 14 — and
any non-digit input returns no match, and the digits of a parsed identity
round-trip through display to the identical digit sequence. -/
theorem tryParse_characterization (s : String) :
    ((tryParse s).isSome = true ↔
      (s.data.all Char.isDigit = true
        ∧ (s.data.length = 6 ∨ s.data.length = 8 ∨ s.data.length = 12
            ∨ s.data.length = 13)))
    ∧ (∀ ds, intDigits s = some ds →
        (s.data.length = 6 → tryParse s = some (.upcE ds))
        ∧ (s.data.length = 8 → tryParse s = some (.ean8 ds))
        ∧ (s.data.length = 12 → tryParse s = some (.upcA ds))
        ∧ (s.data.length = 13 → tryParse s = some (.ean13 ds)))
    ∧ (∀ b, tryParse s = some b → tryParse (digitString b) = some b) := by
  have hsome := intDigitsList_isSome s.data
  refine ⟨?_, ?_, ?_⟩
  · cases hr : intDigitsList s.data with
    | none =>
      rw [hr] at hsome
      rw [tryParse_of_none s hr]
      simp [← hsome]
    | some ds =>
      rw [hr] at hsome
      have hall : s.data.all Char.isDigit = true := by rw [← hsome]; rfl
      have hlen2 : s.length = ds.length := (intDigitsList_length s.data ds hr).symm
      have hlen3 : s.data.length = ds.length := (intDigitsList_length s.data ds hr).symm
      rw [tryParse_some_digits s ds hr]
      split_ifs with h13 h12 h8 h6 <;> simp [hall] <;> omega
  · intro ds hds
    have hlen := intDigitsList_length s.data ds hds
    refine ⟨?_, ?_, ?_, ?_⟩ <;> intro hL <;> rw [tryParse_some_digits s ds hds] <;>
      simp [hlen, hL]
  · intro b hb
    cases hr : intDigits s with
    | none => rw [tryParse_of_none s hr] at hb; exact absurd hb (by simp)
    | some ds =>
      rw [tryParse_some_digits s ds hr] at hb
      have hlt := intDigitsList_lt_ten s.data ds hr
      split_ifs at hb with h13 h12 h8 h6 <;> simp only [Option.some.injEq] at hb <;>
        subst hb <;>
        exact tryParse_roundTrip _ (by simpa [digitsOf] using hlt)
          (by simp [digitsOf, expectedLength]; omega)

/-- Replace the digit list of a barcode, keeping its symbology. -/
def withDigits : Barcode → List Nat → Barcode
  | .ean13 _, ds => .ean13 ds
  | .ean8 _, ds => .ean8 ds
  | .upcA _, ds => .upcA ds
  | .upcE _, ds => .upcE ds

theorem digitsOf_withDigits (b : Barcode) (l : List Nat) :
    digitsOf (withDigits b l) = l := by
  cases b <;> rfl

theorem invertOf_withDigits (b : Barcode) (l : List Nat) :
    invertOf (withDigits b l) = invertOf b := by
  cases b <;> rfl

theorem expectedLength_withDigits (b : Barcode) (l : List Nat) :
    expectedLength (withDigits b l) = expectedLength b := by
  cases b <;> rfl

/-- C9 (counterexample): two EAN-13 identities that differ only in the final
digit (1 versus 2) have the same `check_digit` outcome — both are false —
although the final digits are not equal modulo 10. -/
theorem checkDigit_final_digit_collision :
    checkDigit (Barcode.ean13 ([0, 0, 0, 0, 0, 0, 0, 0, 0, 0, 0, 0] ++ [1]))
      = checkDigit (Barcode.ean13 ([0, 0, 0, 0, 0, 0, 0, 0, 0, 0, 0, 0] ++ [2]))
    ∧ (1 : Nat) % 10 ≠ 2 % 10 := by
  exact ⟨by decide, by decide⟩

/-- C9 (amended): `check_digit` is true for the 13-digit identity parsed from
"4006381333931"; and for two identities that differ only in the final digit,
if `check_digit` is true for both, then the final digits are equal modulo 10 —
at most one residue class of the final digit passes the checksum. (Two such
identities can still share the outcome false with different final digits.) -/
theorem checkDigit_final_digit (b9 : Barcode) (ds : List Nat) (d e : Nat)
    (hd : digitsOf b9 = ds ++ [d])
    (h1 : checkDigit b9 = true)
    (h2 : checkDigit (withDigits b9 (ds ++ [e])) = true) :
    ((tryParse "4006381333931").map checkDigit = some true)
      ∧ d % 10 = e % 10 := by
  refine ⟨by decide, ?_⟩
  rw [checkDigit_iff_weightedSum] at h1 h2
  rw [hd] at h1
  rw [digitsOf_withDigits, invertOf_withDigits, expectedLength_withDigits] at h2
  obtain ⟨hlen1, hsum1⟩ := h1
  obtain ⟨hlen2, hsum2⟩ := h2
  rw [weightedSum_append] at hsum1 hsum2
  unfold weightAt at hsum1 hsum2
  by_cases hw : (ds.length % 2 == 0) = invertOf b9 <;>
    simp only [hw, if_true, if_false] at hsum1 hsum2 <;> omega

/-! ## Ledger store (src/db.rs) -/

/-- `Product` from src/products.rs: a barcode, a display name and a price in
integer minor units (`u32`). -/
structure Product where
  barcode : Barcode
  name : String
  price : Nat
deriving DecidableEq

/-- `Cart` from src/main.rs: the ordered list of scanned products. -/
structure Cart where
  products : List Product
deriving DecidableEq

/-- `Cart::total`: the sum of the prices of the products in the cart. -/
def Cart.total (c : Cart) : Nat :=
  (c.products.map Product.price).sum

/-- `DepositMethod` from src/db.rs. -/
inductive DepositMethod where
  | cash
  | bankTransfer
deriving DecidableEq

/-- `TransactionActor` from src/db.rs. -/
inductive TransactionActor where
  | user (id : String)
  | cash
deriving DecidableEq

/-- `TransactionType` from src/db.rs. -/
inductive TransactionType where
  | purchase (products : List Product) (total : Nat)
  | deposit (amount : Nat) (method : DepositMethod)
deriving DecidableEq

/-- `Transaction` from src/db.rs. The `Utc::now()` timestamp is not modelled:
no claim concerns wall-clock time. -/
structure Transaction where
  actor : TransactionActor
  transaction : TransactionType
deriving DecidableEq

/-- `User` from src/db.rs: account id, `i32` balance in minor units, and an
optional set of `(uid, name)` card bindings. -/
structure User where
  id : String
  balance : Int
  cards : Option (List (String × String))
deriving DecidableEq

/-- `InnerDB` from src/db.rs: the users map (modelled as an association list,
as a `HashMap` with distinct keys) and the append-only transaction log. -/
structure InnerDB where
  users : List (String × User)
  transactions : List Transaction
deriving DecidableEq

/-- `users.get(id)` / `users.get_mut(id)` lookup on the association list. -/
def findUser (us : List (String × User)) (id : String) : Option (String × User) :=
  us.find? (fun p => p.1 == id)

/-- Writing through `users.get_mut(id)`: the entry at key `id` gets the new
value; every other entry is untouched. -/
def updateUser (us : List (String × User)) (id : String) (u : User) :
    List (String × User) :=
  us.map (fun p => if p.1 == id then (p.1, u) else p)

/-- `DB::apply_cart_to_user` from src/db.rs: subtract the cart total from the
user's balance and append a Purchase transaction, or fail (leaving the state
unchanged) when the user does not exist. -/
def applyCartToUser (db : InnerDB) (id : String) (cart : Cart) :
    Except String User × InnerDB :=
  match findUser db.users id with
  | none => (.error ("user " ++ id ++ " does not exist"), db)
  | some p =>
    let u := { p.2 with balance := p.2.balance - (cart.total : Int) }
    (.ok u,
      { users := updateUser db.users id u,
        transactions := db.transactions
          ++ [⟨.user id, .purchase cart.products cart.total⟩] })

/-- `DB::apply_cart_to_cash` from src/db.rs: append a Purchase transaction
with actor Cash; no user is touched. -/
def applyCartToCash (db : InnerDB) (cart : Cart) : InnerDB :=
  { db with
    transactions := db.transactions ++ [⟨.cash, .purchase cart.products cart.total⟩] }

/-- `DB::deposit_user` from src/db.rs: add the amount to the user's balance
and append a Deposit transaction, or fail (leaving the state unchanged) when
the user does not exist. -/
def depositUser (db : InnerDB) (id : String) (amount : Nat)
    (method : DepositMethod) : Except String User × InnerDB :=
  match findUser db.users id with
  | none => (.error ("user " ++ id ++ " does not exist"), db)
  | some p =>
    let u := { p.2 with balance := p.2.balance + (amount : Int) }
    (.ok u,
      { users := updateUser db.users id u,
        transactions := db.transactions ++ [⟨.user id, .deposit amount method⟩] })

/-- `DB::add_user` from src/db.rs: insert a fresh user with balance 0 and an
empty card set, or fail (leaving the state unchanged) when the id is taken. -/
def addUser (db : InnerDB) (id : String) : Except String Unit × InnerDB :=
  if db.users.any (fun p => p.1 == id) then
    (.error ("user " ++ id ++ " already exists"), db)
  else
    (.ok (), { db with users := db.users ++ [(id, ⟨id, 0, some []⟩)] })

/-- Outcome of `DB::add_card_to_user`: the Rust function can panic (string
slice `uid[0..5]` out of bounds) before it returns a `Result`. -/
inductive CardResult where
  | panicked
  | error (msg : String)
  | ok (name : String) (uid : String)
deriving DecidableEq

/-- `HashSet::insert` on the card set of `User.cards`. -/
def insertCard (cards : Option (List (String × String))) (uid name : String) :
    Option (List (String × String)) :=
  match cards with
  | some c => some (if c.contains (uid, name) then c else c ++ [(uid, name)])
  | none => some [(uid, name)]

/-- `DB::add_card_to_user` from src/db.rs: when no card name is given the
default name is the slice `uid[0..5]`, which panics when the UID string is
shorter than five characters; then the `(uid, name)` pair is inserted into the
target user's card set — with no check that the UID is bound elsewhere — or an
error is returned (state unchanged) when the target user does not exist. -/
def addCardToUser (db : InnerDB) (id : String) (cardName : Option String)
    (cardUid : String) : CardResult × InnerDB :=
  let uid := cardUid
  match (match cardName with
         | some n => some n
         | none => if uid.length < 5 then none else some (uid.take 5)) with
  | none => (.panicked, db)
  | some name =>
    match findUser db.users id with
    | none => (.error "This user does not exist.", db)
    | some p =>
      (.ok name uid,
        { db with users := (updateUser db.users id
            ({ p.2 with cards := insertCard p.2.cards uid name })) })

/-- `CardNameOrID` from src/db.rs. -/
inductive CardNameOrID where
  | Name (s : String)
  | ID (s : String)

/-- `DB::delete_card` from src/db.rs. -/
def deleteCard (db : InnerDB) (id : String) (sel : CardNameOrID) :
    Except String Unit × InnerDB :=
  match findUser db.users id with
  | none => (.error "This user does not exist.", db)
  | some p =>
    match p.2.cards with
    | none => (.error "Error, no cards to delete", db)
    | some c =>
      match c.find? (fun q => match sel with
          | .ID i => q.1 == i
          | .Name n => q.2 == n) with
      | none => (.error "Error, no card found with that name or ID", db)
      | some pair =>
        (.ok (),
          { db with users := (updateUser db.users id
              ({ p.2 with cards := some (c.erase pair) })) })

/-- Outcome of `complete_cart` in src/main.rs. `deadlocked` carries the store
state already persisted by the successful purchase; the call itself never
finishes, so the cart slot keeps its cart. `returned` carries the store, the
cart slot after the call, and the printed error message. -/
inductive CompleteCartOutcome where
  | deadlocked (db : InnerDB)
  | returned (db : InnerDB) (cartSlot : Option Cart) (printed : Option String)
deriving DecidableEq

/-- `complete_cart` from src/main.rs. The function acquires the cart mutex at
entry (`let cart_unlocked = cart.lock().await`). In the `Ok` branch it then
runs `*cart.lock().await = None` while that guard is still live —
`drop(cart_unlocked)` only comes after — and tokio's `Mutex` is not
reentrant, so the second acquisition never completes: after the purchase has
been applied and saved, the call deadlocks and the cart slot is never
cleared. In the `Err` branch no second lock is taken; the guard drops at
scope end, the cart stays in the slot, and the error message is printed. -/
def complete_cart (db : InnerDB) (userId : String) (cart : Cart) :
    CompleteCartOutcome :=
  match applyCartToUser db userId cart with
  | (.ok _, db2) => .deadlocked db2
  | (.error e, db2) =>
    .returned db2 (some cart) (some ("Error, unable to charge user: " ++ e))

/-- The UID string `register_card` in src/main.rs builds from the card's
bytes: the concatenation of the decimal string of each byte. -/
def cardUidString (bytes : List Nat) : String :=
  String.join (bytes.map (fun b => toString b))

/-- The user component of `DB::get_user`: look the id up in the users map. -/
def lookupUser (db : InnerDB) (id : String) : Option User :=
  (findUser db.users id).map Prod.snd

/-! ### Association-list lemmas -/

theorem findUser_mem {us : List (String × User)} {id : String} {p : String × User}
    (h : findUser us id = some p) : p ∈ us :=
  List.mem_of_find?_eq_some h

theorem findUser_key {us : List (String × User)} {id : String} {p : String × User}
    (h : findUser us id = some p) : p.1 = id := by
  have := List.find?_some h
  simpa using this

theorem findUser_updateUser_self (id : String) (v : User) :
    ∀ (us : List (String × User)) (p : String × User), findUser us id = some p →
      findUser (updateUser us id v) id = some (p.1, v) := by
  intro us
  induction us with
  | nil => intro p h; simp [findUser] at h
  | cons a us ih =>
    intro p h
    cases ha : (a.1 == id) with
    | true =>
      simp only [findUser, List.find?, ha] at h
      simp only [Option.some.injEq] at h
      subst h
      simp [findUser, updateUser, List.find?, ha]
    | false =>
      simp only [findUser, List.find?, ha] at h
      simp only [updateUser, List.map_cons, ha, if_false]
      simpa [findUser, updateUser, List.find?, ha] using ih p h

theorem findUser_updateUser_ne (id j : String) (v : User) (hne : j ≠ id) :
    ∀ us : List (String × User),
      findUser (updateUser us id v) j = findUser us j := by
  intro us
  induction us with
  | nil => rfl
  | cons a us ih =>
    cases ha : (a.1 == id) with
    | true =>
      have haid : a.1 = id := by simpa using ha
      have haj : (a.1 == j) = false := by rw [haid]; simpa using Ne.symm hne
      simp only [updateUser, List.map_cons, ha, if_true]
      simpa [findUser, updateUser, List.find?, haj] using ih
    | false =>
      simp only [updateUser, List.map_cons, ha, if_false]
      cases haj : (a.1 == j) with
      | true => simp [findUser, List.find?, haj]
      | false =>
        simpa [findUser, updateUser, List.find?, haj] using ih

/-- C7: `apply_cart_to_cash` appends exactly one Purchase transaction with
actor Cash and total equal to the cart total, and leaves the users map —
every account's id, balance and card bindings — exactly as it was. -/
theorem applyCartToCash_spec (db : InnerDB) (cart : Cart) :
    (applyCartToCash db cart).transactions
      = db.transactions ++ [⟨.cash, .purchase cart.products cart.total⟩]
    ∧ (applyCartToCash db cart).users = db.users :=
  ⟨rfl, rfl⟩

/-- C6 (code bug): the claim — the cart transitions to Idle exactly on ledger
success, stays InProgress with an error message on failure — states the
code's evident intent, but the `Ok` branch of `complete_cart` re-acquires the
cart mutex while its own guard is still live and deadlocks, so on every
successful purchase the cart slot is never cleared and the call never
returns; only the failure branch behaves as claimed, keeping the very same
cart and reporting the error message. -/
theorem complete_cart_deadlocks (db : InnerDB) (userId : String) (cart : Cart) :
    (∀ u, (applyCartToUser db userId cart).1 = .ok u →
        complete_cart db userId cart
          = .deadlocked (applyCartToUser db userId cart).2)
    ∧ (∀ e, (applyCartToUser db userId cart).1 = .error e →
        complete_cart db userId cart
          = .returned db (some cart)
              (some ("Error, unable to charge user: " ++ e))) := by
  cases hf : findUser db.users userId with
  | none =>
    refine ⟨?_, ?_⟩
    · intro u hu
      simp only [applyCartToUser, hf] at hu
      simp at hu
    · intro e he
      simp only [applyCartToUser, hf] at he
      simp at he
      subst he
      simp [complete_cart, applyCartToUser, hf]
  | some p =>
    refine ⟨?_, ?_⟩
    · intro u hu
      simp [complete_cart, applyCartToUser, hf]
    · intro e he
      simp only [applyCartToUser, hf] at he
      simp at he

/-- C8: `deposit_user` and `apply_cart_to_user` on a missing account id return
an error and leave the store untouched, and `add_user` on an existing id
returns an error whose message contains "already exists", also leaving the
store untouched. -/
theorem missing_and_duplicate_account_errors (db : InnerDB) (idA idB : String)
    (amount : Nat) (method : DepositMethod) (cart : Cart)
    (hA : findUser db.users idA = none)
    (hB : db.users.any (fun p => p.1 == idB) = true) :
    depositUser db idA amount method
        = (.error ("user " ++ idA ++ " does not exist"), db)
    ∧ applyCartToUser db idA cart
        = (.error ("user " ++ idA ++ " does not exist"), db)
    ∧ addUser db idB = (.error ("user " ++ idB ++ " already exists"), db)
    ∧ ∃ pre post, ("user " ++ idB ++ " already exists")
        = pre ++ "already exists" ++ post := by
  refine ⟨?_, ?_, ?_, ?_⟩
  · simp [depositUser, hA]
  · simp [applyCartToUser, hA]
  · simp [addUser, hB]
  · refine ⟨"user " ++ idB ++ " ", "", ?_⟩
    apply String.ext
    simp [String.data_append]

/-- C10: calling `add_card_to_user` with no card name and a UID string shorter
than five characters panics — the default name is the slice `uid[0..5]` — so
the call neither returns an error nor mutates the store; `register_card`
reaches this with a 4-byte card UID whose bytes are all single-digit numbers,
whose concatenated decimal string has length 4. -/
theorem addCardToUser_panics (db : InnerDB) (id : String) (uid : String)
    (h : uid.length < 5) :
    (addCardToUser db id none uid).1 = .panicked
    ∧ (addCardToUser db id none uid).2 = db := by
  simp [addCardToUser, h]

/-- Witness for C10: the 4-byte UID `[1, 2, 3, 4]` concatenates to "1234",
which is shorter than five characters, and the call panics on it. -/
theorem addCardToUser_panics_witness :
    (cardUidString [1, 2, 3, 4]).length < 5
    ∧ (addCardToUser ⟨[], []⟩ "alice" none (cardUidString [1, 2, 3, 4])).1
        = .panicked :=
  ⟨by decide, (addCardToUser_panics ⟨[], []⟩ "alice" (cardUidString [1, 2, 3, 4])
    (by decide)).1⟩

/-- A two-account store in which the UID "123456" is already bound to alice. -/
def dbC1 : InnerDB :=
  ⟨[("alice", ⟨"alice", 0, some [("123456", "c")]⟩), ("bob", ⟨"bob", 0, some []⟩)],
   []⟩

/-- C1 (counterexample): with the UID "123456" already bound to alice,
`add_card_to_user` on bob with that very UID does not return an error: it
returns ok and mutates the store, contradicting the claim that it rejects a
UID bound to any account and mutates neither. -/
theorem addCardToUser_accepts_bound_uid :
    (dbC1.users.any
        (fun p => (p.2.cards.getD []).any (fun q => q.1 == "123456"))) = true
    ∧ (addCardToUser dbC1 "bob" (some "work") "123456").1 = .ok "work" "123456"
    ∧ (addCardToUser dbC1 "bob" (some "work") "123456").2 ≠ dbC1 := by
  exact ⟨by decide, by decide, by decide⟩

/-- C1 (amended): `add_card_to_user` performs no UID-uniqueness check. With a
UID already bound to some account, an explicit card name, and an existing
target account, the call succeeds: it returns ok, inserts the binding into the
target's card set, and leaves every other account — including the one already
holding the UID — and the transaction log unchanged. It errors only when the
target account does not exist. -/
theorem addCardToUser_no_uniqueness_check (db : InnerDB) (idB uid n : String)
    (u : User)
    (hBound : ∃ p ∈ db.users, ∃ q ∈ p.2.cards.getD [], q.1 = uid)
    (hB : lookupUser db idB = some u) :
    (addCardToUser db idB (some n) uid).1 = .ok n uid
    ∧ lookupUser (addCardToUser db idB (some n) uid).2 idB
        = some ({ u with cards := insertCard u.cards uid n })
    ∧ (∀ j, j ≠ idB →
        lookupUser (addCardToUser db idB (some n) uid).2 j = lookupUser db j)
    ∧ (addCardToUser db idB (some n) uid).2.transactions = db.transactions := by
  cases hf : findUser db.users idB with
  | none => rw [lookupUser, hf] at hB; simp at hB
  | some p =>
    have hp2 : p.2 = u := by rw [lookupUser, hf] at hB; simpa using hB
    subst hp2
    refine ⟨?_, ?_, ?_, ?_⟩
    · simp [addCardToUser, hf]
    · simp only [addCardToUser, hf]
      rw [lookupUser]
      rw [findUser_updateUser_self idB _ db.users p hf]
      rfl
    · intro j hj
      simp only [addCardToUser, hf]
      rw [lookupUser, findUser_updateUser_ne idB j _ hj db.users]
      rfl
    · simp [addCardToUser, hf]

/-- Witness for C1's amended theorem, at the concrete store `dbC1`. -/
theorem addCardToUser_no_uniqueness_check_witness :
    (addCardToUser dbC1 "bob" (some "home") "123456").1 = .ok "home" "123456"
    ∧ (addCardToUser dbC1 "bob" (some "home") "123456").2.transactions
        = dbC1.transactions := by
  have h := addCardToUser_no_uniqueness_check dbC1 "bob" "123456" "home"
    ⟨"bob", 0, some []⟩ (by decide) (by decide)
  exact ⟨h.1, h.2.2.2⟩

/-! ### Sequential purchases (C4) -/

/-- N sequential `apply_cart_to_user` calls on the same account. -/
def applyCarts (db : InnerDB) (id : String) (carts : List Cart) : InnerDB :=
  carts.foldl (fun d c => (applyCartToUser d id c).2) db

theorem applyCarts_spec (id : String) : ∀ (carts : List Cart) (db : InnerDB) (u : User),
    lookupUser db id = some u →
    (applyCarts db id carts).transactions
        = db.transactions
          ++ carts.map (fun c => ⟨.user id, .purchase c.products c.total⟩)
    ∧ lookupUser (applyCarts db id carts) id
        = some ({ u with balance := u.balance - ((carts.map Cart.total).sum : Int) })
    ∧ ∀ j, j ≠ id → lookupUser (applyCarts db id carts) j = lookupUser db j := by
  intro carts
  induction carts with
  | nil =>
    intro db u hu
    refine ⟨by simp [applyCarts], ?_, fun j hj => rfl⟩
    simpa [applyCarts] using hu
  | cons c cs ih =>
    intro db u hu
    cases hf : findUser db.users id with
    | none => rw [lookupUser, hf] at hu; simp at hu
    | some p =>
      have hp2 : p.2 = u := by rw [lookupUser, hf] at hu; simpa using hu
      subst hp2
      have hstep : applyCarts db id (c :: cs)
          = applyCarts
              ⟨updateUser db.users id
                  ({ p.2 with balance := p.2.balance - (c.total : Int) }),
                db.transactions ++ [⟨.user id, .purchase c.products c.total⟩]⟩
              id cs := by
        simp [applyCarts, applyCartToUser, hf]
      have hlk : lookupUser
          ⟨updateUser db.users id
              ({ p.2 with balance := p.2.balance - (c.total : Int) }),
            db.transactions ++ [⟨.user id, .purchase c.products c.total⟩]⟩ id
          = some ({ p.2 with balance := p.2.balance - (c.total : Int) }) := by
        rw [lookupUser]
        rw [findUser_updateUser_self id _ db.users p hf]
        rfl
      obtain ⟨ht, hb, hfr⟩ := ih _ _ hlk
      refine ⟨?_, ?_, ?_⟩
      · rw [hstep, ht]
        simp
      · rw [hstep, hb]
        simp only [List.map_cons, List.sum_cons, Option.some.injEq]
        congr 1
        push_cast
        ring
      · intro j hj
        rw [hstep, hfr j hj]
        rw [lookupUser, findUser_updateUser_ne id j _ hj db.users]
        rfl

/-- C4: starting from an account present in the store, a non-empty sequence of
sequential `apply_cart_to_user` calls appends exactly one Purchase transaction
per cart — with that cart's product list and total, in order, never fewer and
never more — decreases the account's balance by exactly the sum of the cart
totals, and changes no other account. -/
theorem applyCarts_c4 (db : InnerDB) (id : String) (u : User) (carts : List Cart)
    (hu : lookupUser db id = some u) (hne : carts ≠ []) :
    (applyCarts db id carts).transactions
        = db.transactions
          ++ carts.map (fun c => ⟨.user id, .purchase c.products c.total⟩)
    ∧ lookupUser (applyCarts db id carts) id
        = some ({ u with balance := u.balance - ((carts.map Cart.total).sum : Int) })
    ∧ ∀ j, j ≠ id → lookupUser (applyCarts db id carts) j = lookupUser db j :=
  applyCarts_spec id carts db u hu

/-- A one-account store and two concrete carts for the C4 witness. -/
def dbW4 : InnerDB := ⟨[("alice", ⟨"alice", 0, some []⟩)], []⟩

/-- A concrete product used by the C4 witness carts. -/
def snack : Product := ⟨.ean8 [0, 0, 0, 0, 0, 0, 0, 0], "snack", 150⟩

/-- The two concrete carts used by the C4 witness. -/
def cartsW : List Cart := [⟨[snack]⟩, ⟨[snack, snack]⟩]

/-- Witness for C4 at two concrete carts: two Purchase transactions appear and
the balance drops by the sum of the two cart totals. -/
theorem applyCarts_c4_witness :
    (applyCarts dbW4 "alice" cartsW).transactions
        = dbW4.transactions
          ++ cartsW.map (fun c => ⟨.user "alice", .purchase c.products c.total⟩)
    ∧ lookupUser (applyCarts dbW4 "alice" cartsW) "alice"
        = some ({ (⟨"alice", 0, some []⟩ : User) with
            balance := (⟨"alice", 0, some []⟩ : User).balance
              - ((cartsW.map Cart.total).sum : Int) }) := by
  have h := applyCarts_c4 dbW4 "alice" ⟨"alice", 0, some []⟩
    cartsW (by decide) (by decide)
  exact ⟨h.1, h.2.1⟩

/-! ### The balance invariant (C5) -/

/-- The sum of the amounts of the Deposit transactions whose actor is the
given account. -/
def depositSum (id : String) (ts : List Transaction) : Nat :=
  (ts.filterMap (fun t => match t with
    | ⟨.user i, .deposit amount _⟩ => if i = id then some amount else none
    | _ => none)).sum

/-- The sum of the totals of the Purchase transactions whose actor is the
given account. -/
def purchaseSum (id : String) (ts : List Transaction) : Nat :=
  (ts.filterMap (fun t => match t with
    | ⟨.user i, .purchase _ total⟩ => if i = id then some total else none
    | _ => none)).sum

theorem depositSum_append_purchase (id i : String) (ps : List Product)
    (total : Nat) (ts : List Transaction) :
    depositSum id (ts ++ [⟨.user i, .purchase ps total⟩]) = depositSum id ts := by
  simp [depositSum, List.filterMap_append]

theorem purchaseSum_append_purchase (id i : String) (ps : List Product)
    (total : Nat) (ts : List Transaction) :
    purchaseSum id (ts ++ [⟨.user i, .purchase ps total⟩])
      = purchaseSum id ts + (if i = id then total else 0) := by
  by_cases h : i = id <;> simp [purchaseSum, List.filterMap_append, h]

theorem depositSum_append_deposit (id i : String) (a : Nat) (m : DepositMethod)
    (ts : List Transaction) :
    depositSum id (ts ++ [⟨.user i, .deposit a m⟩])
      = depositSum id ts + (if i = id then a else 0) := by
  by_cases h : i = id <;> simp [depositSum, List.filterMap_append, h]

theorem purchaseSum_append_deposit (id i : String) (a : Nat) (m : DepositMethod)
    (ts : List Transaction) :
    purchaseSum id (ts ++ [⟨.user i, .deposit a m⟩]) = purchaseSum id ts := by
  simp [purchaseSum, List.filterMap_append]

theorem depositSum_append_cash (id : String) (ty : TransactionType)
    (ts : List Transaction) :
    depositSum id (ts ++ [⟨.cash, ty⟩]) = depositSum id ts := by
  cases ty <;> simp [depositSum, List.filterMap_append]

theorem purchaseSum_append_cash (id : String) (ty : TransactionType)
    (ts : List Transaction) :
    purchaseSum id (ts ++ [⟨.cash, ty⟩]) = purchaseSum id ts := by
  cases ty <;> simp [purchaseSum, List.filterMap_append]

theorem depositSum_eq_zero (id : String) (ts : List Transaction)
    (h : ∀ t ∈ ts, t.actor ≠ .user id) : depositSum id ts = 0 := by
  induction ts with
  | nil => rfl
  | cons t ts ih =>
    have ht := h t (List.mem_cons_self ..)
    have hrest := ih (fun s hs => h s (List.mem_cons_of_mem _ hs))
    rcases t with ⟨actor, ty⟩
    cases actor with
    | cash => cases ty <;> simpa [depositSum, List.filterMap_cons] using hrest
    | user i =>
      have hne : i ≠ id := fun hh => ht (by rw [hh])
      cases ty <;> simpa [depositSum, List.filterMap_cons, hne] using hrest

theorem purchaseSum_eq_zero (id : String) (ts : List Transaction)
    (h : ∀ t ∈ ts, t.actor ≠ .user id) : purchaseSum id ts = 0 := by
  induction ts with
  | nil => rfl
  | cons t ts ih =>
    have ht := h t (List.mem_cons_self ..)
    have hrest := ih (fun s hs => h s (List.mem_cons_of_mem _ hs))
    rcases t with ⟨actor, ty⟩
    cases actor with
    | cash => cases ty <;> simpa [purchaseSum, List.filterMap_cons] using hrest
    | user i =>
      have hne : i ≠ id := fun hh => ht (by rw [hh])
      cases ty <;> simpa [purchaseSum, List.filterMap_cons, hne] using hrest

/-- Every account's balance equals its signed transaction sum. -/
def balancesOk (db : InnerDB) : Prop :=
  ∀ p ∈ db.users, p.2.balance
    = (depositSum p.1 db.transactions : Int) - (purchaseSum p.1 db.transactions : Int)

/-- Every transaction with a user actor names an existing account. -/
def actorsClosed (db : InnerDB) : Prop :=
  ∀ t ∈ db.transactions, ∀ i, t.actor = .user i → ∃ p ∈ db.users, p.1 = i

theorem keys_updateUser (us : List (String × User)) (id : String) (v : User)
    (i : String) (h : ∃ p ∈ us, p.1 = i) :
    ∃ p ∈ updateUser us id v, p.1 = i := by
  obtain ⟨p, hp, hpi⟩ := h
  by_cases hid : (p.1 == id) = true
  · exact ⟨(p.1, v), List.mem_map.mpr ⟨p, hp, by simp [hid]⟩, hpi⟩
  · exact ⟨p, List.mem_map.mpr ⟨p, hp, by simp [hid]⟩, hpi⟩

theorem balancesOk_update_cards (db : InnerDB) (id : String) (p : String × User)
    (hf : findUser db.users id = some p)
    (newCards : Option (List (String × String)))
    (hb : balancesOk db) :
    balancesOk ⟨updateUser db.users id ({ p.2 with cards := newCards }),
      db.transactions⟩ := by
  intro q hq
  rcases List.mem_map.mp hq with ⟨r, hr, hrq⟩
  subst hrq
  by_cases hid : (r.1 == id) = true
  · have hrid : r.1 = id := by simpa using hid
    have hp := hb p (findUser_mem hf)
    have hpid := findUser_key hf
    simp only [hid, if_true]
    rw [hrid, ← hpid]
    exact hp
  · simp only [hid, if_false]
    exact hb r hr

theorem inv_applyCartToUser (db : InnerDB) (id : String) (cart : Cart)
    (h : balancesOk db ∧ actorsClosed db) :
    balancesOk (applyCartToUser db id cart).2
      ∧ actorsClosed (applyCartToUser db id cart).2 := by
  obtain ⟨hb, hc⟩ := h
  cases hf : findUser db.users id with
  | none => simp only [applyCartToUser, hf]; exact ⟨hb, hc⟩
  | some p =>
    have hpid := findUser_key hf
    have hpmem := findUser_mem hf
    simp only [applyCartToUser, hf]
    constructor
    · intro q hq
      rcases List.mem_map.mp hq with ⟨r, hr, hrq⟩
      subst hrq
      by_cases hid : (r.1 == id) = true
      · have hrid : r.1 = id := by simpa using hid
        have hp := hb p hpmem
        simp only [hid, if_true]
        rw [show ((r.1, { p.2 with balance := p.2.balance - (cart.total : Int) }) :
            String × User).1 = r.1 from rfl]
        rw [hrid, depositSum_append_purchase, purchaseSum_append_purchase,
          if_pos rfl]
        rw [hpid] at hp
        show p.2.balance - (cart.total : Int) = _
        push_cast
        omega
      · have hrid : r.1 ≠ id := by simpa using hid
        have hir : id ≠ r.1 := Ne.symm hrid
        have hp := hb r hr
        simp only [hid, if_false]
        rw [depositSum_append_purchase, purchaseSum_append_purchase]
        simpa [hir] using hp
    · intro t ht i hact
      rcases List.mem_append.mp ht with ht | ht
      · exact keys_updateUser _ _ _ _ (hc t ht i hact)
      · have heq : t = ⟨.user id, .purchase cart.products cart.total⟩ := by
          simpa using ht
        subst heq
        simp only at hact
        cases hact
        exact keys_updateUser _ _ _ _ ⟨p, hpmem, hpid⟩

theorem inv_depositUser (db : InnerDB) (id : String) (amount : Nat)
    (method : DepositMethod) (h : balancesOk db ∧ actorsClosed db) :
    balancesOk (depositUser db id amount method).2
      ∧ actorsClosed (depositUser db id amount method).2 := by
  obtain ⟨hb, hc⟩ := h
  cases hf : findUser db.users id with
  | none => simp only [depositUser, hf]; exact ⟨hb, hc⟩
  | some p =>
    have hpid := findUser_key hf
    have hpmem := findUser_mem hf
    simp only [depositUser, hf]
    constructor
    · intro q hq
      rcases List.mem_map.mp hq with ⟨r, hr, hrq⟩
      subst hrq
      by_cases hid : (r.1 == id) = true
      · have hrid : r.1 = id := by simpa using hid
        have hp := hb p hpmem
        simp only [hid, if_true]
        rw [show ((r.1, { p.2 with balance := p.2.balance + (amount : Int) }) :
            String × User).1 = r.1 from rfl]
        rw [hrid, depositSum_append_deposit, purchaseSum_append_deposit,
          if_pos rfl]
        rw [hpid] at hp
        show p.2.balance + (amount : Int) = _
        push_cast
        omega
      · have hrid : r.1 ≠ id := by simpa using hid
        have hir : id ≠ r.1 := Ne.symm hrid
        have hp := hb r hr
        simp only [hid, if_false]
        rw [depositSum_append_deposit, purchaseSum_append_deposit]
        simpa [hir] using hp
    · intro t ht i hact
      rcases List.mem_append.mp ht with ht | ht
      · exact keys_updateUser _ _ _ _ (hc t ht i hact)
      · have heq : t = ⟨.user id, .deposit amount method⟩ := by simpa using ht
        subst heq
        simp only at hact
        cases hact
        exact keys_updateUser _ _ _ _ ⟨p, hpmem, hpid⟩

theorem inv_applyCartToCash (db : InnerDB) (cart : Cart)
    (h : balancesOk db ∧ actorsClosed db) :
    balancesOk (applyCartToCash db cart) ∧ actorsClosed (applyCartToCash db cart) := by
  obtain ⟨hb, hc⟩ := h
  constructor
  · intro q hq
    have := hb q hq
    simpa [applyCartToCash, depositSum_append_cash, purchaseSum_append_cash]
      using this
  · intro t ht i hact
    rcases List.mem_append.mp ht with ht | ht
    · exact hc t ht i hact
    · have heq : t = ⟨.cash, .purchase cart.products cart.total⟩ := by simpa using ht
      subst heq
      exact absurd hact (by simp)

theorem inv_addUser (db : InnerDB) (id : String)
    (h : balancesOk db ∧ actorsClosed db) :
    balancesOk (addUser db id).2 ∧ actorsClosed (addUser db id).2 := by
  obtain ⟨hb, hc⟩ := h
  by_cases hex : db.users.any (fun p => p.1 == id) = true
  · simp only [addUser, hex, if_true]; exact ⟨hb, hc⟩
  · simp only [addUser, hex, if_false]
    constructor
    · intro q hq
      rcases List.mem_append.mp hq with hq | hq
      · exact hb q hq
      · have heq : q = (id, ⟨id, 0, some []⟩) := by simpa using hq
        subst heq
        have hno : ∀ t ∈ db.transactions, t.actor ≠ .user id := by
          intro t ht hact
          obtain ⟨p, hp, hpi⟩ := hc t ht id hact
          exact hex (List.any_eq_true.mpr ⟨p, hp, by simp [hpi]⟩)
        simp [depositSum_eq_zero id _ hno, purchaseSum_eq_zero id _ hno]
    · intro t ht i hact
      obtain ⟨p, hp, hpi⟩ := hc t ht i hact
      exact ⟨p, List.mem_append_left _ hp, hpi⟩

theorem inv_addCardToUser (db : InnerDB) (id : String) (n : Option String)
    (uid : String) (h : balancesOk db ∧ actorsClosed db) :
    balancesOk (addCardToUser db id n uid).2
      ∧ actorsClosed (addCardToUser db id n uid).2 := by
  obtain ⟨hb, hc⟩ := h
  unfold addCardToUser
  dsimp only
  split
  · exact ⟨hb, hc⟩
  · rename_i name hname
    cases hf : findUser db.users id with
    | none => simp only [hf]; exact ⟨hb, hc⟩
    | some p =>
      simp only [hf]
      constructor
      · exact balancesOk_update_cards db id p hf _ hb
      · intro t ht i hact
        exact keys_updateUser _ _ _ _ (hc t ht i hact)

theorem inv_deleteCard (db : InnerDB) (id : String) (sel : CardNameOrID)
    (h : balancesOk db ∧ actorsClosed db) :
    balancesOk (deleteCard db id sel).2 ∧ actorsClosed (deleteCard db id sel).2 := by
  obtain ⟨hb, hc⟩ := h
  unfold deleteCard
  cases hf : findUser db.users id with
  | none => simp only [hf]; exact ⟨hb, hc⟩
  | some p =>
    simp only [hf]
    cases hcards : p.2.cards with
    | none => exact ⟨hb, hc⟩
    | some c =>
      show balancesOk (match c.find? (fun (q : String × String) => match sel with
            | CardNameOrID.ID i => q.1 == i
            | CardNameOrID.Name n => q.2 == n) with
          | none =>
            ((Except.error "Error, no card found with that name or ID" :
                Except String Unit), db)
          | some pair =>
            (Except.ok (),
              { db with users := (updateUser db.users id
                  ({ p.2 with cards := some (c.erase pair) })) })).2
        ∧ actorsClosed (match c.find? (fun (q : String × String) => match sel with
            | CardNameOrID.ID i => q.1 == i
            | CardNameOrID.Name n => q.2 == n) with
          | none =>
            ((Except.error "Error, no card found with that name or ID" :
                Except String Unit), db)
          | some pair =>
            (Except.ok (),
              { db with users := (updateUser db.users id
                  ({ p.2 with cards := some (c.erase pair) })) })).2
      cases hfind : c.find? (fun q => match sel with
          | CardNameOrID.ID i => q.1 == i
          | CardNameOrID.Name n => q.2 == n) with
      | none => exact ⟨hb, hc⟩
      | some pair =>
        refine ⟨balancesOk_update_cards db id p hf _ hb, ?_⟩
        intro t ht i hact
        exact keys_updateUser _ _ _ _ (hc t ht i hact)

/-- The ledger states reachable from the empty store through the mutating
operations of `DB`. -/
inductive Reach : InnerDB → Prop where
  | empty : Reach ⟨[], []⟩
  | purchase (db : InnerDB) (id : String) (cart : Cart) :
      Reach db → Reach (applyCartToUser db id cart).2
  | cashPurchase (db : InnerDB) (cart : Cart) :
      Reach db → Reach (applyCartToCash db cart)
  | deposit (db : InnerDB) (id : String) (amount : Nat) (method : DepositMethod) :
      Reach db → Reach (depositUser db id amount method).2
  | newUser (db : InnerDB) (id : String) :
      Reach db → Reach (addUser db id).2
  | newCard (db : InnerDB) (id : String) (n : Option String) (uid : String) :
      Reach db → Reach (addCardToUser db id n uid).2
  | delCard (db : InnerDB) (id : String) (sel : CardNameOrID) :
      Reach db → Reach (deleteCard db id sel).2

theorem reach_inv (db : InnerDB) (h : Reach db) :
    balancesOk db ∧ actorsClosed db := by
  induction h with
  | empty =>
    constructor
    · intro p hp; cases hp
    · intro t ht; cases ht
  | purchase db id cart hr ih => exact inv_applyCartToUser db id cart ih
  | cashPurchase db cart hr ih => exact inv_applyCartToCash db cart ih
  | deposit db id amount method hr ih => exact inv_depositUser db id amount method ih
  | newUser db id hr ih => exact inv_addUser db id ih
  | newCard db id n uid hr ih => exact inv_addCardToUser db id n uid ih
  | delCard db id sel hr ih => exact inv_deleteCard db id sel ih

/-- C5: in every ledger state reachable from the empty store through
`add_user`, `apply_cart_to_user`, `apply_cart_to_cash`, `deposit_user`,
`add_card_to_user` and `delete_card`, every account's balance equals the
signed sum of its transactions since creation: the sum of its Deposit amounts
minus the sum of the totals of the Purchase transactions whose actor is that
account. -/
theorem balance_eq_signed_sum (db : InnerDB) (h : Reach db) :
    ∀ p ∈ db.users, p.2.balance
      = (depositSum p.1 db.transactions : Int)
        - (purchaseSum p.1 db.transactions : Int) :=
  (reach_inv db h).1

/-- The concrete reachable state for the C5 witness: create alice, deposit
150, then buy a 150-priced cart twice. -/
def dbW5 : InnerDB :=
  (applyCartToUser
    (applyCartToUser
      (depositUser (addUser ⟨[], []⟩ "alice").2 "alice" 150 .cash).2
      "alice" ⟨[snack]⟩).2
    "alice" ⟨[snack]⟩).2

/-- Witness for C5 at a concrete reachable state: alice's balance −150 equals
her deposit sum 150 minus her purchase sum 300. -/
theorem balance_eq_signed_sum_witness :
    (("alice", (⟨"alice", -150, some []⟩ : User)) ∈ dbW5.users)
    ∧ ((⟨"alice", -150, some []⟩ : User).balance
        = (depositSum "alice" dbW5.transactions : Int)
          - (purchaseSum "alice" dbW5.transactions : Int)) := by
  have hreach : Reach dbW5 :=
    Reach.purchase _ _ _ (Reach.purchase _ _ _
      (Reach.deposit _ _ _ _ (Reach.newUser _ _ Reach.empty)))
  have hmem : (("alice", (⟨"alice", -150, some []⟩ : User)) : String × User)
      ∈ dbW5.users := by decide
  exact ⟨hmem, balance_eq_signed_sum dbW5 hreach _ hmem⟩

/-! ### Witnesses for the remaining hypothesis-bearing claim theorems -/

/-- Witness for C2 at the concrete digit string "4006381333931": it parses as
EAN-13 and its display digit sequence parses back to the same identity. -/
theorem tryParse_characterization_witness :
    tryParse "4006381333931" = some (.ean13 [4, 0, 0, 6, 3, 8, 1, 3, 3, 3, 9, 3, 1])
    ∧ tryParse (digitString (.ean13 [4, 0, 0, 6, 3, 8, 1, 3, 3, 3, 9, 3, 1]))
        = some (.ean13 [4, 0, 0, 6, 3, 8, 1, 3, 3, 3, 9, 3, 1]) := by
  have h := tryParse_characterization "4006381333931"
  have hparse : tryParse "4006381333931"
      = some (.ean13 [4, 0, 0, 6, 3, 8, 1, 3, 3, 3, 9, 3, 1]) :=
    (h.2.1 [4, 0, 0, 6, 3, 8, 1, 3, 3, 3, 9, 3, 1] (by decide)).2.2.2 (by decide)
  exact ⟨hparse, h.2.2 _ hparse⟩

/-- Witness for C6: on a store where alice exists the successful purchase
deadlocks with the purchase already persisted, and on a store with no
accounts the failed purchase keeps the cart and reports the error message. -/
theorem complete_cart_deadlocks_witness :
    complete_cart dbW4 "alice" ⟨[snack]⟩
        = .deadlocked (applyCartToUser dbW4 "alice" ⟨[snack]⟩).2
    ∧ complete_cart ⟨[], []⟩ "ghost" ⟨[]⟩
        = .returned ⟨[], []⟩ (some ⟨[]⟩)
            (some ("Error, unable to charge user: " ++ "user ghost does not exist")) :=
  ⟨(complete_cart_deadlocks dbW4 "alice" ⟨[snack]⟩).1 ⟨"alice", -150, some []⟩
      (by rfl),
   (complete_cart_deadlocks ⟨[], []⟩ "ghost" ⟨[]⟩).2 "user ghost does not exist" rfl⟩

/-- Witness for C8 at the concrete store `dbC1`: depositing to the absent
"ghost" errors and leaves the store unchanged, and re-adding "alice" errors
with an "already exists" message, also leaving the store unchanged. -/
theorem missing_and_duplicate_account_errors_witness :
    depositUser dbC1 "ghost" 100 .cash
        = (.error ("user " ++ "ghost" ++ " does not exist"), dbC1)
    ∧ addUser dbC1 "alice" = (.error ("user " ++ "alice" ++ " already exists"), dbC1) := by
  have h := missing_and_duplicate_account_errors dbC1 "ghost" "alice" 100 .cash ⟨[]⟩
    (by decide) (by decide)
  exact ⟨h.1, h.2.2.1⟩

/-- Witness for C9's amended theorem at the all-zero EAN-13: both the digit 0
and the digit 10 pass the checksum in the final position, and they are equal
modulo 10. -/
theorem checkDigit_final_digit_witness :
    ((tryParse "4006381333931").map checkDigit = some true)
    ∧ (0 : Nat) % 10 = 10 % 10 :=
  checkDigit_final_digit (Barcode.ean13 [0, 0, 0, 0, 0, 0, 0, 0, 0, 0, 0, 0, 0])
    [0, 0, 0, 0, 0, 0, 0, 0, 0, 0, 0, 0] 0 10 (by decide) (by decide) (by decide)

end Bank
